import Mathlib

/-!
Verification of the MethodSCRIPT result-decoding engine of the hardpotato
repository (src/hardpotato/pico_mscript.py), as a shallow embedding.

Strings from the wire are modelled as `List Char`.  Python exceptions are
modelled with `Except Unit`: `.error ()` means the Python code raises, and
`.ok` carries the returned value.  Python floats are modelled as rationals;
the float NaN is modelled with an explicit constructor.
-/

namespace PicoMScript

/-- Whitespace characters stripped by the Python `int` conversion
(`str.strip` semantics restricted to the ASCII range of the wire format). -/
def isPyWs (c : Char) : Bool :=
  c.toNat = 32 || c.toNat = 9 || c.toNat = 10 || c.toNat = 13 ||
  c.toNat = 11 || c.toNat = 12

/-- Hexadecimal digit test for the Python `int(s, 16)` conversion. -/
def isHexDigit (c : Char) : Bool :=
  (48 ≤ c.toNat && c.toNat ≤ 57) ||
  (97 ≤ c.toNat && c.toNat ≤ 102) ||
  (65 ≤ c.toNat && c.toNat ≤ 70)

/-- Numeric value of a hexadecimal digit. -/
def hexDigitVal (c : Char) : ℕ :=
  if 48 ≤ c.toNat && c.toNat ≤ 57 then c.toNat - 48
  else if 97 ≤ c.toNat && c.toNat ≤ 102 then c.toNat - 87
  else if 65 ≤ c.toNat && c.toNat ≤ 70 then c.toNat - 55
  else 0

/-- Strip leading and trailing whitespace, as Python `str.strip()`. -/
def stripWs (l : List Char) : List Char :=
  ((l.dropWhile isPyWs).reverse.dropWhile isPyWs).reverse

/-- Accumulating scanner over hexadecimal digits with the single-underscore
separators accepted by Python `int(s, 16)` (an underscore is only valid
between two digits). -/
def hexGo (acc : ℕ) : List Char → Option ℕ
  | [] => some acc
  | c :: rest =>
    if isHexDigit c then hexGo (16 * acc + hexDigitVal c) rest
    else if c = '_' then
      match rest with
      | c2 :: rest2 =>
        if isHexDigit c2 then hexGo (16 * acc + hexDigitVal c2) rest2 else none
      | [] => none
    else none

/-- Digit-sequence part of the Python `int(s, 16)` grammar: one or more hex
digits, possibly separated by single underscores; must start with a digit. -/
def hexCore : List Char → Option ℕ
  | [] => none
  | c :: rest => if isHexDigit c then hexGo (hexDigitVal c) rest else none

/-- Drop the single optional underscore allowed right after a `0x` base
marker in the Python `int` grammar. -/
def dropOneUnderscore : List Char → List Char
  | '_' :: r => r
  | r => r

/-- Hexadecimal number after an optional sign: an optional `0x` / `0X` base
marker followed by the digit sequence. -/
def hexAfterSign (t : List Char) : Option ℕ :=
  match t with
  | c0 :: c1 :: r =>
    if c0 = '0' && (c1 = 'x' || c1 = 'X') then hexCore (dropOneUnderscore r)
    else hexCore (c0 :: c1 :: r)
  | t => hexCore t

/-- Model of Python `int(s, 16)`: surrounding whitespace is stripped, an
optional sign is accepted, then an optional `0x` marker and hex digits.
`none` models the `ValueError` raised on any other input. -/
def pyIntHex (s : List Char) : Option ℤ :=
  match stripWs s with
  | [] => none
  | c :: r =>
    if c = '+' then (hexAfterSign r).map (fun n => (n : ℤ))
    else if c = '-' then (hexAfterSign r).map (fun n => -(n : ℤ))
    else (hexAfterSign (c :: r)).map (fun n => (n : ℤ))

/-- Unsigned value of a hexadecimal digit string (most significant first). -/
def hexListVal (l : List Char) : ℕ :=
  l.foldl (fun a c => 16 * a + hexDigitVal c) 0

/-- Model of Python `str.split(sep)` for a one-character separator: always
returns at least one (possibly empty) piece. -/
def splitOnChar (sep : Char) : List Char → List (List Char)
  | [] => [[]]
  | c :: rest =>
    let r := splitOnChar sep rest
    if c = sep then [] :: r
    else
      match r with
      | [] => [[c]]
      | s :: ss => (c :: s) :: ss

/-- Sequential effectful map over a list in the `Except Unit` monad,
modelling a Python list comprehension: the first raised exception aborts
the whole comprehension. -/
def exMapM (f : α → Except Unit β) : List α → Except Unit (List β)
  | [] => .ok []
  | a :: as =>
    match f a with
    | .error e => .error e
    | .ok b =>
      match exMapM f as with
      | .error e => .error e
      | .ok bs => .ok (b :: bs)

/-- MethodSCRIPT variable type: two-letter id, human name, physical unit
(the VarType namedtuple of the source). -/
structure VarType where
  id : List Char
  name : String
  unit : String
deriving DecidableEq

/-- Static catalogue of MethodSCRIPT variable types
(MSCRIPT_VAR_TYPES_LIST of the source). -/
def MSCRIPT_VAR_TYPES_LIST : List VarType := [
  ⟨"aa".data, "unknown", ""⟩,
  ⟨"ab".data, "WE vs RE potential", "V"⟩,
  ⟨"ac".data, "CE vs GND potential", "V"⟩,
  ⟨"ad".data, "SE vs GND potential", "V"⟩,
  ⟨"ae".data, "RE vs GND potential", "V"⟩,
  ⟨"af".data, "WE vs GND potential", "V"⟩,
  ⟨"ag".data, "WE vs CE potential", "V"⟩,
  ⟨"as".data, "AIN0 potential", "V"⟩,
  ⟨"at".data, "AIN1 potential", "V"⟩,
  ⟨"au".data, "AIN2 potential", "V"⟩,
  ⟨"av".data, "AIN3 potential", "V"⟩,
  ⟨"aw".data, "AIN4 potential", "V"⟩,
  ⟨"ax".data, "AIN5 potential", "V"⟩,
  ⟨"ay".data, "AIN6 potential", "V"⟩,
  ⟨"az".data, "AIN7 potential", "V"⟩,
  ⟨"ba".data, "WE current", "A"⟩,
  ⟨"ca".data, "Phase", "degrees"⟩,
  ⟨"cb".data, "Impedance", "Ω"⟩,
  ⟨"cc".data, "Z_real", "Ω"⟩,
  ⟨"cd".data, "Z_imag", "Ω"⟩,
  ⟨"ce".data, "EIS E TDD", "V"⟩,
  ⟨"cf".data, "EIS I TDD", "A"⟩,
  ⟨"cg".data, "EIS sampling frequency", "Hz"⟩,
  ⟨"ch".data, "EIS E AC", "Vrms"⟩,
  ⟨"ci".data, "EIS E DC", "V"⟩,
  ⟨"cj".data, "EIS I AC", "Arms"⟩,
  ⟨"ck".data, "EIS I DC", "A"⟩,
  ⟨"da".data, "Applied potential", "V"⟩,
  ⟨"db".data, "Applied current", "A"⟩,
  ⟨"dc".data, "Applied frequency", "Hz"⟩,
  ⟨"dd".data, "Applied AC amplitude", "Vrms"⟩,
  ⟨"ea".data, "Channel", ""⟩,
  ⟨"eb".data, "Time", "s"⟩,
  ⟨"ec".data, "Pin mask", ""⟩,
  ⟨"ed".data, "Temperature", "° Celsius"⟩,
  ⟨"ha".data, "Generic current 1", "A"⟩,
  ⟨"hb".data, "Generic current 2", "A"⟩,
  ⟨"hc".data, "Generic current 3", "A"⟩,
  ⟨"hd".data, "Generic current 4", "A"⟩,
  ⟨"ia".data, "Generic potential 1", "V"⟩,
  ⟨"ib".data, "Generic potential 2", "V"⟩,
  ⟨"ic".data, "Generic potential 3", "V"⟩,
  ⟨"id".data, "Generic potential 4", "V"⟩,
  ⟨"ja".data, "Misc. generic 1", ""⟩,
  ⟨"jb".data, "Misc. generic 2", ""⟩,
  ⟨"jc".data, "Misc. generic 3", ""⟩,
  ⟨"jd".data, "Misc. generic 4", ""⟩]

/-- Lookup in the id-keyed dictionary MSCRIPT_VAR_TYPES_DICT (the ids of the
static list are pairwise distinct, so first match equals dict lookup). -/
def varTypesFind (id : List Char) : Option VarType :=
  MSCRIPT_VAR_TYPES_LIST.find? (fun t => t.id = id)

/-- Model of get_variable_type: the registry entry when the id is known,
otherwise a synthesized VarType with name "unknown" and empty unit.  The
warning emitted on the fallback path is a logging side effect; the companion
function var_type_warns records on which inputs it fires. -/
def get_variable_type (id : List Char) : VarType :=
  match varTypesFind id with
  | some t => t
  | none => ⟨id, "unknown", ""⟩

/-- Tracks the warning side effect of get_variable_type: a warning is
emitted exactly when the id is absent from the static table. -/
def var_type_warns (id : List Char) : Bool :=
  (varTypesFind id).isNone

/-- Model of the SI_PREFIX_FACTOR dictionary: the factor for a supported
SI prefix character, `none` for a character outside the table (a lookup
outside the table raises KeyError in Python). -/
def siPrefixFactor : Char → Option ℚ
  | 'a' => some (1 / 10 ^ 18)
  | 'f' => some (1 / 10 ^ 15)
  | 'p' => some (1 / 10 ^ 12)
  | 'n' => some (1 / 10 ^ 9)
  | 'u' => some (1 / 10 ^ 6)
  | 'm' => some (1 / 10 ^ 3)
  | ' ' => some 1
  | 'k' => some (10 ^ 3)
  | 'M' => some (10 ^ 6)
  | 'G' => some (10 ^ 9)
  | 'T' => some (10 ^ 12)
  | 'P' => some (10 ^ 15)
  | 'E' => some (10 ^ 18)
  | 'i' => some 1
  | _ => none

/-- Raw decoded value of a variable: a signed integer, or the float NaN
produced by the NaN sentinel. -/
inductive RawV where
  | intVal (z : ℤ)
  | nan
deriving DecidableEq

/-- Scaled value of a variable: a rational (model of the Python float
product), or NaN. -/
inductive RVal where
  | num (q : ℚ)
  | nan
deriving DecidableEq

/-- Metadata dictionary: insertion-ordered list of key/value pairs,
modelling the Python dict built by parse_metadata. -/
abbrev MdDict := List (String × ℤ)

/-- Insert with overwrite, modelling Python dict item assignment. -/
def dictInsert (k : String) (v : ℤ) (d : MdDict) : MdDict :=
  if d.any (fun p => p.1 = k) then
    d.map (fun p => if p.1 = k then (k, v) else p)
  else d ++ [(k, v)]

/-- Key membership in the metadata dictionary. -/
def hasKey (d : MdDict) (k : String) : Bool :=
  d.any (fun p => p.1 = k)

/-- Guard of the "status" branch of parse_metadata: a 2-character token
starting with '1'. -/
abbrev mdGuardStatus (t : List Char) : Prop :=
  t.length = 2 ∧ t.head? = some '1'

/-- Guard of the "cr" branch of parse_metadata: a 3-character token
starting with '2'. -/
abbrev mdGuardCr (t : List Char) : Prop :=
  t.length = 3 ∧ t.head? = some '2'

/-- Processing of one metadata token by MScriptVar.parse_metadata: a
2-character token starting with '1' sets "status" from its second character
read as hex; a 3-character token starting with '2' sets "cr" from its last
two characters read as hex; both guards are checked (plain ifs in the
source); any other token is ignored.  A guard-matching token whose hex part
is invalid raises (ValueError from int). -/
def mdStep (d : MdDict) (token : List Char) : Except Unit MdDict :=
  let s1 : Except Unit MdDict :=
    if mdGuardStatus token then
      match pyIntHex (token.drop 1) with
      | some v => .ok (dictInsert "status" v d)
      | none => .error ()
    else .ok d
  match s1 with
  | .error e => .error e
  | .ok d1 =>
    if mdGuardCr token then
      match pyIntHex (token.drop 1) with
      | some v => .ok (dictInsert "cr" v d1)
      | none => .error ()
    else .ok d1

/-- Left fold of mdStep over the metadata tokens. -/
def mdFold (d : MdDict) : List (List Char) → Except Unit MdDict
  | [] => .ok d
  | t :: ts =>
    match mdStep d t with
    | .error e => .error e
    | .ok d1 => mdFold d1 ts

/-- Model of MScriptVar.parse_metadata. -/
def parse_metadata (tokens : List (List Char)) : Except Unit MdDict :=
  mdFold [] tokens

/-- Model of MScriptVar.decode_value: asserts the input is exactly 7
characters, converts it with Python int(s, 16) and subtracts the fixed
offset 2^27; `.error` models AssertionError and ValueError. -/
def decode_value (var : List Char) : Except Unit ℤ :=
  if var.length = 7 then
    match pyIntHex var with
    | some n => .ok (n - 2 ^ 27)
    | none => .error ()
  else .error ()

/-- The literal 8-character NaN sentinel compared against data[2:10] in the
source: five spaces followed by "nan". -/
def nanSentinel : List Char := "     nan".data

/-- Modelled from the spec: the NaN sentinel as the spec describes it,
seven spaces followed by "nan" (a 10-character string), used to compare
the spec's description against the sentinel literal of the source. -/
def sevenSpacesNan : List Char := "       nan".data

/-- Decoded MethodSCRIPT variable (the fields of the MScriptVar class that
the parsing layer fills in). -/
structure MScriptVar where
  id : List Char
  raw_value : RawV
  si_prefix_char : Char
  raw_metadata : List (List Char)
  metadata : MdDict
deriving DecidableEq

/-- Model of MScriptVar.__init__: asserts length at least 10; reads the id
from the first two characters; recognizes the NaN sentinel in data[2:10]
(then the prefix is forced to the neutral space), otherwise decodes
data[2:9] as the raw value and takes data[9] as the SI prefix character;
finally splits off the comma-separated metadata and parses it.  `.error`
models any exception escaping the constructor. -/
def mkMScriptVar (data : List Char) : Except Unit MScriptVar :=
  if h : 10 ≤ data.length then
    let id := data.take 2
    let rawMeta := (splitOnChar ',' data).drop 1
    if (data.drop 2).take 8 = nanSentinel then
      match parse_metadata rawMeta with
      | .error e => .error e
      | .ok md => .ok ⟨id, .nan, ' ', rawMeta, md⟩
    else
      match decode_value ((data.drop 2).take 7) with
      | .error e => .error e
      | .ok z =>
        match parse_metadata rawMeta with
        | .error e => .error e
        | .ok md => .ok ⟨id, .intVal z, data.get ⟨9, by omega⟩, rawMeta, md⟩
  else .error ()

/-- Model of the MScriptVar.value property: the raw value multiplied by the
SI prefix factor; raises (KeyError) when the prefix character is outside
the SI prefix table; NaN propagates. -/
def varValue (v : MScriptVar) : Except Unit RVal :=
  match siPrefixFactor v.si_prefix_char with
  | none => .error ()
  | some f =>
    match v.raw_value with
    | .nan => .ok .nan
    | .intVal z => .ok (.num ((z : ℚ) * f))

/-- Model of the MScriptVar.type property. -/
def varTypeOf (v : MScriptVar) : VarType :=
  get_variable_type v.id

/-- Model of parse_mscript_data_package: a line starting with 'P' and
ending with a newline is split on ';' after stripping those two characters,
and every segment is decoded in order; any exception escaping a segment
constructor propagates.  A line of any other shape yields None. -/
def parse_mscript_data_package (line : List Char) :
    Except Unit (Option (List MScriptVar)) :=
  if line.head? = some 'P' ∧ line.getLast? = some '\n' then
    (exMapM mkMScriptVar (splitOnChar ';' ((line.drop 1).dropLast))).map
      (fun vars => some vars)
  else .ok none

/-- Terminator recognition of parse_result_lines: a non-empty line whose
first character is '+', '*' or '-'. -/
def isTerminator (line : List Char) : Bool :=
  match line with
  | [] => false
  | c :: _ => c = '+' || c = '*' || c = '-'

/-- One step of the parse_result_lines loop on the state
(finished curves, current curve accumulator). -/
def prStep (st : List (List (List MScriptVar)) × List (List MScriptVar))
    (line : List Char) :
    Except Unit (List (List (List MScriptVar)) × List (List MScriptVar)) :=
  if isTerminator line then
    if st.2.isEmpty then .ok st else .ok (st.1 ++ [st.2], [])
  else
    match parse_mscript_data_package line with
    | .error e => .error e
    | .ok none => .ok st
    | .ok (some pkg) =>
      if pkg.isEmpty then .ok st else .ok (st.1, st.2 ++ [pkg])

/-- Fold of prStep over the input lines. -/
def prFold (st : List (List (List MScriptVar)) × List (List MScriptVar)) :
    List (List Char) →
    Except Unit (List (List (List MScriptVar)) × List (List MScriptVar))
  | [] => .ok st
  | line :: rest =>
    match prStep st line with
    | .error e => .error e
    | .ok st' => prFold st' rest

/-- Model of parse_result_lines: fold the loop from the empty state and
return the finished curves; the trailing accumulator is discarded. -/
def parse_result_lines (lines : List (List Char)) :
    Except Unit (List (List (List MScriptVar))) :=
  (prFold ([], []) lines).map Prod.fst

/-- Value of the column-indexed variable of one data package (row):
Python row[column].value, raising IndexError when the column is out of
range and KeyError when the SI prefix is unsupported. -/
def rowColValue (row : List MScriptVar) (column : ℕ) : Except Unit RVal :=
  match row.get? column with
  | some v => varValue v
  | none => .error ()

/-- Model of get_values_by_column: with no curve filter, the values of the
requested column of every package of every curve, in curve order then row
order (the flattening loop of the source); with a curve index, the values
of that single curve (IndexError when the index is out of range). -/
def get_values_by_column (curves : List (List (List MScriptVar)))
    (column : ℕ) (icurve : Option ℕ) : Except Unit (List RVal) :=
  match icurve with
  | none =>
    (exMapM (fun curve => exMapM (fun row => rowColValue row column) curve)
      curves).map List.flatten
  | some i =>
    match curves.get? i with
    | some curve => exMapM (fun row => rowColValue row column) curve
    | none => .error ()

/-! Helper lemmas about the Python int model. -/

theorem isPyWs_eq_false_of_hex {c : Char} (h : isHexDigit c = true) :
    isPyWs c = false := by
  simp only [isHexDigit, Bool.or_eq_true, Bool.and_eq_true, decide_eq_true_eq] at h
  simp only [isPyWs, Bool.or_eq_false_iff, decide_eq_false_iff_not]
  omega

theorem ne_of_hex {c : Char} (h : isHexDigit c = true) {c' : Char}
    (h' : isHexDigit c' = false) : c ≠ c' := by
  intro he
  rw [he, h'] at h
  exact Bool.false_ne_true h

theorem dropWhile_ws_of_hex {l : List Char}
    (h : ∀ c ∈ l, isHexDigit c = true) : l.dropWhile isPyWs = l := by
  cases l with
  | nil => rfl
  | cons c rest =>
    rw [List.dropWhile_cons, isPyWs_eq_false_of_hex (h c (by simp))]
    simp

theorem stripWs_of_hex {l : List Char}
    (h : ∀ c ∈ l, isHexDigit c = true) : stripWs l = l := by
  unfold stripWs
  rw [dropWhile_ws_of_hex h, dropWhile_ws_of_hex (by simpa using h),
    List.reverse_reverse]

theorem hexGo_of_hex (l : List Char) (acc : ℕ)
    (h : ∀ c ∈ l, isHexDigit c = true) :
    hexGo acc l = some (l.foldl (fun a c => 16 * a + hexDigitVal c) acc) := by
  induction l generalizing acc with
  | nil => rfl
  | cons c rest ih =>
    rw [hexGo.eq_def]
    simp only [h c (by simp), if_true]
    rw [ih _ (fun x hx => h x (by simp [hx]))]
    rfl

theorem hexCore_of_hex {l : List Char} (hne : l ≠ [])
    (h : ∀ c ∈ l, isHexDigit c = true) : hexCore l = some (hexListVal l) := by
  cases l with
  | nil => exact absurd rfl hne
  | cons c rest =>
    rw [hexCore, if_pos (h c (by simp)),
      hexGo_of_hex rest _ (fun x hx => h x (by simp [hx]))]
    simp [hexListVal, List.foldl_cons]

theorem hexAfterSign_of_hex {l : List Char} (hne : l ≠ [])
    (h : ∀ c ∈ l, isHexDigit c = true) :
    hexAfterSign l = some (hexListVal l) := by
  match l with
  | [] => exact absurd rfl hne
  | [c] => exact hexCore_of_hex hne h
  | c0 :: c1 :: r =>
    have h1 : isHexDigit c1 = true := h c1 (by simp)
    have hx : c1 ≠ 'x' := ne_of_hex h1 (by decide)
    have hX : c1 ≠ 'X' := ne_of_hex h1 (by decide)
    rw [hexAfterSign, if_neg (by simp [hx, hX]), hexCore_of_hex hne h]

theorem pyIntHex_of_hex {l : List Char} (hne : l ≠ [])
    (h : ∀ c ∈ l, isHexDigit c = true) :
    pyIntHex l = some ((hexListVal l : ℤ)) := by
  have hstrip := stripWs_of_hex h
  match hl : l, hne, h with
  | c :: rest, _, h =>
    have hc : isHexDigit c = true := h c (by simp)
    have hplus : c ≠ '+' := ne_of_hex hc (by decide)
    have hminus : c ≠ '-' := ne_of_hex hc (by decide)
    rw [pyIntHex]
    rw [hstrip]
    simp only [hplus, hminus, if_false, if_neg]
    rw [hexAfterSign_of_hex (by simp) h]
    rfl

theorem decode_value_of_hex {l : List Char} (hlen : l.length = 7)
    (h : ∀ c ∈ l, isHexDigit c = true) :
    decode_value l = .ok ((hexListVal l : ℤ) - 2 ^ 27) := by
  rw [decode_value, if_pos hlen, pyIntHex_of_hex (by intro he; simp [he] at hlen) h]

/-! Helper lemmas about splitting and the effectful map. -/

theorem splitOnChar_ne_nil (sep : Char) (l : List Char) :
    splitOnChar sep l ≠ [] := by
  cases l with
  | nil => simp [splitOnChar]
  | cons c rest =>
    rw [splitOnChar.eq_def]
    by_cases hc : c = sep
    · simp [hc]
    · simp only [hc, if_false]
      rcases splitOnChar sep rest with _ | ⟨s, ss⟩ <;> simp

theorem splitOnChar_length (sep : Char) (l : List Char) :
    (splitOnChar sep l).length = l.count sep + 1 := by
  induction l with
  | nil => simp [splitOnChar]
  | cons c rest ih =>
    rw [splitOnChar.eq_def]
    by_cases hc : c = sep
    · simp only [hc, if_true, List.length_cons, ih, List.count_cons]
      simp
    · simp only [hc, if_false]
      rcases hr : splitOnChar sep rest with _ | ⟨s, ss⟩
      · exact absurd hr (splitOnChar_ne_nil sep rest)
      · have := ih
        rw [hr] at this
        simp only [List.length_cons] at this ⊢
        rw [List.count_cons]
        simp [hc, this]

theorem splitOnChar_of_not_mem {sep : Char} {l : List Char} (h : sep ∉ l) :
    splitOnChar sep l = [l] := by
  induction l with
  | nil => rfl
  | cons c rest ih =>
    rw [splitOnChar.eq_def]
    have hc : ¬(c = sep) := fun he => h (by simp [he])
    simp only [hc, if_false]
    rw [ih (fun hm => h (by simp [hm]))]

theorem exMapM_cons (f : α → Except Unit β) (a : α) (as : List α) :
    exMapM f (a :: as) =
      match f a with
      | .error e => .error e
      | .ok b =>
        match exMapM f as with
        | .error e => .error e
        | .ok bs => .ok (b :: bs) := rfl

theorem exMapM_ok_length {f : α → Except Unit β} {l : List α} {bs : List β}
    (h : exMapM f l = .ok bs) : bs.length = l.length := by
  induction l generalizing bs with
  | nil =>
    simp only [exMapM] at h
    cases h
    rfl
  | cons a as ih =>
    cases hfa : f a with
    | error e => simp [exMapM_cons, hfa] at h
    | ok b =>
      cases hrest : exMapM f as with
      | error e => simp [exMapM_cons, hfa, hrest] at h
      | ok bs' =>
        simp only [exMapM_cons, hfa, hrest] at h
        cases h
        simp [ih hrest]

theorem exMapM_ok_get {f : α → Except Unit β} {l : List α} {bs : List β}
    (h : exMapM f l = .ok bs) :
    ∀ i (h1 : i < l.length) (h2 : i < bs.length),
      f (l.get ⟨i, h1⟩) = .ok (bs.get ⟨i, h2⟩) := by
  induction l generalizing bs with
  | nil => intro i h1 _; exact absurd h1 (by simp)
  | cons a as ih =>
    cases hfa : f a with
    | error e => simp [exMapM_cons, hfa] at h
    | ok b =>
      cases hrest : exMapM f as with
      | error e => simp [exMapM_cons, hfa, hrest] at h
      | ok bs' =>
        simp only [exMapM_cons, hfa, hrest] at h
        cases h
        intro i h1 h2
        cases i with
        | zero => simpa using hfa
        | succ j =>
          simp only [List.get_cons_succ]
          exact ih hrest j (by simpa using h1) (by simpa using h2)

theorem exMapM_ok_mem {f : α → Except Unit β} {l : List α} {bs : List β}
    (h : exMapM f l = .ok bs) : ∀ a ∈ l, ∃ b, f a = .ok b := by
  induction l generalizing bs with
  | nil => intro a ha; exact absurd ha (by simp)
  | cons x as ih =>
    cases hfa : f x with
    | error e => simp [exMapM_cons, hfa] at h
    | ok b =>
      cases hrest : exMapM f as with
      | error e => simp [exMapM_cons, hfa, hrest] at h
      | ok bs' =>
        intro a ha
        rcases List.mem_cons.mp ha with rfl | hm
        · exact ⟨b, hfa⟩
        · exact ih hrest a hm

theorem exMapM_error_of_mem {f : α → Except Unit β} {l : List α} {a : α}
    (ha : a ∈ l) (hf : f a = .error ()) : exMapM f l = .error () := by
  induction l with
  | nil => exact absurd ha (by simp)
  | cons x as ih =>
    cases hfx : f x with
    | error e => cases e; simp [exMapM_cons, hfx]
    | ok b =>
      rcases List.mem_cons.mp ha with rfl | hm
      · rw [hfx] at hf; cases hf
      · simp [exMapM_cons, hfx, ih hm]

theorem exMapM_ok_of_forall {f : α → Except Unit β} {l : List α}
    (h : ∀ a ∈ l, ∃ b, f a = .ok b) : ∃ bs, exMapM f l = .ok bs := by
  induction l with
  | nil => exact ⟨[], rfl⟩
  | cons x as ih =>
    obtain ⟨b, hb⟩ := h x (by simp)
    obtain ⟨bs, hbs⟩ := ih (fun a ha => h a (by simp [ha]))
    exact ⟨b :: bs, by simp [exMapM_cons, hb, hbs]⟩

/-! Helper lemmas about the metadata dictionary. -/

theorem dictInsert_mem {kv : String × ℤ} {k : String} {v : ℤ} {d : MdDict}
    (h : kv ∈ dictInsert k v d) : kv.1 = k ∨ kv ∈ d := by
  unfold dictInsert at h
  by_cases hc : d.any (fun p => p.1 = k)
  · rw [if_pos hc] at h
    obtain ⟨p, hp, hpe⟩ := List.mem_map.mp h
    by_cases hpk : p.1 = k
    · rw [if_pos hpk] at hpe
      left
      rw [← hpe]
    · rw [if_neg hpk] at hpe
      right
      rw [← hpe]
      exact hp
  · rw [if_neg hc] at h
    rcases List.mem_append.mp h with hm | hm
    · exact Or.inr hm
    · left
      simp only [List.mem_singleton] at hm
      rw [hm]

theorem hasKey_dictInsert {k v : _} {d : MdDict} {k' : String}
    (h : hasKey (dictInsert k v d) k' = true) : k' = k ∨ hasKey d k' = true := by
  unfold hasKey at h
  simp only [List.any_eq_true, decide_eq_true_eq] at h
  obtain ⟨p, hp, hpk⟩ := h
  rcases dictInsert_mem hp with h1 | h1
  · left; rw [← hpk, h1]
  · right
    unfold hasKey
    simp only [List.any_eq_true, decide_eq_true_eq]
    exact ⟨p, h1, hpk⟩

theorem mdGuard_not_both {t : List Char} (h1 : mdGuardStatus t)
    (h2 : mdGuardCr t) : False := by
  have e1 := h1.1
  have e2 := h2.1
  omega

theorem mdStep_skip {d : MdDict} {t : List Char} (h1 : ¬ mdGuardStatus t)
    (h2 : ¬ mdGuardCr t) : mdStep d t = .ok d := by
  simp [mdStep, h1, h2]

theorem mdStep_status_eq {d : MdDict} {t : List Char} (g1 : mdGuardStatus t) :
    mdStep d t =
      match pyIntHex t.tail with
      | some v => .ok (dictInsert "status" v d)
      | none => .error () := by
  have g2 : ¬ mdGuardCr t := fun hg => mdGuard_not_both g1 hg
  cases hpy : pyIntHex t.tail with
  | none =>
    simp only [mdStep]
    rw [if_pos g1]
    simp [hpy]
  | some v =>
    simp only [mdStep]
    rw [if_pos g1]
    simp [hpy, g2]

theorem mdStep_cr_eq {d : MdDict} {t : List Char} (g1 : ¬ mdGuardStatus t)
    (g2 : mdGuardCr t) :
    mdStep d t =
      match pyIntHex t.tail with
      | some v => .ok (dictInsert "cr" v d)
      | none => .error () := by
  cases hpy : pyIntHex t.tail with
  | none =>
    simp only [mdStep]
    rw [if_neg g1]
    simp only []
    rw [if_pos g2]
    simp [hpy]
  | some v =>
    simp only [mdStep]
    rw [if_neg g1]
    simp only []
    rw [if_pos g2]
    simp [hpy]

theorem mdStep_ok_mem {d : MdDict} {t : List Char} {d' : MdDict}
    (h : mdStep d t = .ok d') :
    ∀ kv ∈ d', kv ∈ d ∨ kv.1 = "status" ∨ kv.1 = "cr" := by
  by_cases g1 : mdGuardStatus t
  · rw [mdStep_status_eq g1] at h
    cases hpy : pyIntHex t.tail with
    | none => rw [hpy] at h; cases h
    | some v =>
      rw [hpy] at h
      cases h
      intro kv hkv
      rcases dictInsert_mem hkv with h1 | h1
      · exact Or.inr (Or.inl h1)
      · exact Or.inl h1
  · by_cases g2 : mdGuardCr t
    · rw [mdStep_cr_eq g1 g2] at h
      cases hpy : pyIntHex t.tail with
      | none => rw [hpy] at h; cases h
      | some v =>
        rw [hpy] at h
        cases h
        intro kv hkv
        rcases dictInsert_mem hkv with h1 | h1
        · exact Or.inr (Or.inr h1)
        · exact Or.inl h1
    · rw [mdStep_skip g1 g2] at h
      cases h
      intro kv hkv
      exact Or.inl hkv

theorem mdStep_hasKey {d : MdDict} {t : List Char} {d' : MdDict} {k : String}
    (h : mdStep d t = .ok d') (hk : hasKey d' k = true) :
    hasKey d k = true ∨ (k = "status" ∧ mdGuardStatus t) ∨
      (k = "cr" ∧ mdGuardCr t) := by
  by_cases g1 : mdGuardStatus t
  · rw [mdStep_status_eq g1] at h
    cases hpy : pyIntHex t.tail with
    | none => rw [hpy] at h; cases h
    | some v =>
      rw [hpy] at h
      cases h
      rcases hasKey_dictInsert hk with h1 | h1
      · exact Or.inr (Or.inl ⟨h1, g1⟩)
      · exact Or.inl h1
  · by_cases g2 : mdGuardCr t
    · rw [mdStep_cr_eq g1 g2] at h
      cases hpy : pyIntHex t.tail with
      | none => rw [hpy] at h; cases h
      | some v =>
        rw [hpy] at h
        cases h
        rcases hasKey_dictInsert hk with h1 | h1
        · exact Or.inr (Or.inr ⟨h1, g2⟩)
        · exact Or.inl h1
    · rw [mdStep_skip g1 g2] at h
      cases h
      exact Or.inl hk

theorem mdFold_ok_mem {ts : List (List Char)} {d d' : MdDict}
    (h : mdFold d ts = .ok d') :
    ∀ kv ∈ d', kv ∈ d ∨ kv.1 = "status" ∨ kv.1 = "cr" := by
  induction ts generalizing d with
  | nil =>
    simp only [mdFold] at h
    cases h
    intro kv hkv
    exact Or.inl hkv
  | cons t ts ih =>
    rw [mdFold] at h
    cases hstep : mdStep d t with
    | error e => rw [hstep] at h; cases h
    | ok d1 =>
      rw [hstep] at h
      intro kv hkv
      rcases ih h kv hkv with h1 | h1
      · exact mdStep_ok_mem hstep kv h1
      · exact Or.inr h1

theorem mdFold_hasKey {ts : List (List Char)} {d d' : MdDict} {k : String}
    (h : mdFold d ts = .ok d') (hk : hasKey d' k = true) :
    hasKey d k = true ∨ (k = "status" ∧ ∃ t ∈ ts, mdGuardStatus t) ∨
      (k = "cr" ∧ ∃ t ∈ ts, mdGuardCr t) := by
  induction ts generalizing d with
  | nil =>
    simp only [mdFold] at h
    cases h
    exact Or.inl hk
  | cons t ts ih =>
    rw [mdFold] at h
    cases hstep : mdStep d t with
    | error e => rw [hstep] at h; cases h
    | ok d1 =>
      rw [hstep] at h
      rcases ih h with h1 | ⟨hks, t', ht', hg⟩ | ⟨hkc, t', ht', hg⟩
      · rcases mdStep_hasKey hstep h1 with h2 | ⟨hks, hg⟩ | ⟨hkc, hg⟩
        · exact Or.inl h2
        · exact Or.inr (Or.inl ⟨hks, t, by simp, hg⟩)
        · exact Or.inr (Or.inr ⟨hkc, t, by simp, hg⟩)
      · exact Or.inr (Or.inl ⟨hks, t', by simp [ht'], hg⟩)
      · exact Or.inr (Or.inr ⟨hkc, t', by simp [ht'], hg⟩)

theorem mdFold_skip {ts : List (List Char)} {d : MdDict}
    (h : ∀ t ∈ ts, ¬ mdGuardStatus t ∧ ¬ mdGuardCr t) : mdFold d ts = .ok d := by
  induction ts with
  | nil => rfl
  | cons t ts ih =>
    rw [mdFold, mdStep_skip (h t (by simp)).1 (h t (by simp)).2]
    exact ih (fun t' ht' => h t' (by simp [ht']))

/-! Helper lemmas about the curve-assembly fold. -/

theorem prStep_term {st : List (List (List MScriptVar)) × List (List MScriptVar)}
    {line : List Char} (h : isTerminator line = true) :
    prStep st line = if st.2.isEmpty then .ok st else .ok (st.1 ++ [st.2], []) := by
  simp [prStep, h]

theorem prStep_nonterm {st st' : List (List (List MScriptVar)) × List (List MScriptVar)}
    {line : List Char} (h : isTerminator line = false)
    (hok : prStep st line = .ok st') :
    st'.1 = st.1 ∧ (st'.2 = st.2 ∨ ∃ pkg, st'.2 = st.2 ++ [pkg]) := by
  simp only [prStep, h, Bool.false_eq_true, if_false] at hok
  cases hp : parse_mscript_data_package line with
  | error e => rw [hp] at hok; cases hok
  | ok o =>
    rw [hp] at hok
    cases o with
    | none =>
      cases hok
      exact ⟨rfl, Or.inl rfl⟩
    | some pkg =>
      by_cases hemp : pkg.isEmpty
      · simp only [hemp, if_true] at hok
        cases hok
        exact ⟨rfl, Or.inl rfl⟩
      · simp only [hemp, if_false] at hok
        cases hok
        exact ⟨rfl, Or.inr ⟨pkg, rfl⟩⟩

theorem prStep_no_empty {st st' : List (List (List MScriptVar)) × List (List MScriptVar)}
    {line : List Char} (hok : prStep st line = .ok st')
    (hinv : [] ∉ st.1) : [] ∉ st'.1 := by
  cases hterm : isTerminator line with
  | false =>
    rw [(prStep_nonterm hterm hok).1]
    exact hinv
  | true =>
    rw [prStep_term hterm] at hok
    by_cases hemp : st.2.isEmpty
    · rw [if_pos hemp] at hok
      cases hok
      exact hinv
    · rw [if_neg hemp] at hok
      cases hok
      intro hmem
      rcases List.mem_append.mp hmem with hm | hm
      · exact hinv hm
      · simp only [List.mem_singleton] at hm
        rw [← hm] at hemp
        simp at hemp

theorem prFold_no_empty {lines : List (List Char)}
    {st st' : List (List (List MScriptVar)) × List (List MScriptVar)}
    (h : prFold st lines = .ok st') (hinv : [] ∉ st.1) : [] ∉ st'.1 := by
  induction lines generalizing st with
  | nil =>
    simp only [prFold] at h
    cases h
    exact hinv
  | cons line rest ih =>
    rw [prFold] at h
    cases hstep : prStep st line with
    | error e => rw [hstep] at h; cases h
    | ok st1 =>
      rw [hstep] at h
      exact ih h (prStep_no_empty hstep hinv)

theorem prFold_fst_of_no_term {lines : List (List Char)}
    {st st' : List (List (List MScriptVar)) × List (List MScriptVar)}
    (hterm : ∀ l ∈ lines, isTerminator l = false)
    (h : prFold st lines = .ok st') : st'.1 = st.1 := by
  induction lines generalizing st with
  | nil =>
    simp only [prFold] at h
    cases h
    rfl
  | cons line rest ih =>
    rw [prFold] at h
    cases hstep : prStep st line with
    | error e => rw [hstep] at h; cases h
    | ok st1 =>
      rw [hstep] at h
      rw [ih (fun l hl => hterm l (by simp [hl])) h]
      exact (prStep_nonterm (hterm line (by simp)) hstep).1

theorem prFold_cons (st : List (List (List MScriptVar)) × List (List MScriptVar))
    (line : List Char) (rest : List (List Char)) :
    prFold st (line :: rest) =
      match prStep st line with
      | .error e => .error e
      | .ok st' => prFold st' rest := rfl

theorem prFold_append (st : List (List (List MScriptVar)) × List (List MScriptVar))
    (front tail : List (List Char)) :
    prFold st (front ++ tail) =
      match prFold st front with
      | .error e => .error e
      | .ok st1 => prFold st1 tail := by
  induction front generalizing st with
  | nil => rfl
  | cons line rest ih =>
    rw [List.cons_append, prFold_cons, prFold_cons]
    cases hstep : prStep st line with
    | error e => rfl
    | ok st1 => exact ih st1

/-! Helper lemmas about package parsing. -/

theorem parse_package_shape {line : List Char}
    (hP : line.head? = some 'P') (hNL : line.getLast? = some '\n') :
    parse_mscript_data_package line =
      (exMapM mkMScriptVar (splitOnChar ';' ((line.drop 1).dropLast))).map
        (fun vars => some vars) := by
  rw [parse_mscript_data_package, if_pos ⟨hP, hNL⟩]

theorem parse_package_ok_some {line : List Char} {pkg : List MScriptVar}
    (hok : parse_mscript_data_package line = .ok (some pkg)) :
    exMapM mkMScriptVar (splitOnChar ';' ((line.drop 1).dropLast)) = .ok pkg := by
  by_cases hshape : line.head? = some 'P' ∧ line.getLast? = some '\n'
  · rw [parse_mscript_data_package, if_pos hshape] at hok
    cases hmap : exMapM mkMScriptVar (splitOnChar ';' ((line.drop 1).dropLast)) with
    | error e => rw [hmap] at hok; cases hok
    | ok vars =>
      rw [hmap] at hok
      simp only [Except.map] at hok
      cases hok
      rfl
  · rw [parse_mscript_data_package, if_neg hshape] at hok
    simp at hok

/-! Claim theorems. -/

/-- C8 (confirmed): for every id, get_variable_type returns without raising;
a registered id returns its registry entry (no warning), an unregistered id
returns the synthesized VarType with name "unknown" and empty unit and
emits the warning; consequently a token with the unregistered id "zz"
decodes without raising and its type's unit is the empty string. -/
theorem c8_unknown_id_tolerance (id : List Char) :
    (∀ t, varTypesFind id = some t →
      get_variable_type id = t ∧ var_type_warns id = false) ∧
    (varTypesFind id = none →
      get_variable_type id = ⟨id, "unknown", ""⟩ ∧ var_type_warns id = true) ∧
    (varTypesFind ("zz".data) = none ∧
      ∃ v, mkMScriptVar ("zz0000000 ".data) = .ok v ∧
        (varTypeOf v).unit = "" ∧ var_type_warns v.id = true) := by
  refine ⟨?_, ?_, ?_, ?_⟩
  · intro t ht
    constructor
    · rw [get_variable_type, ht]
    · rw [var_type_warns, ht]
      rfl
  · intro hn
    constructor
    · rw [get_variable_type, hn]
    · rw [var_type_warns, hn]
      rfl
  · rfl
  · exact ⟨⟨"zz".data, .intVal (-134217728), ' ', [], []⟩, by rfl, rfl, rfl⟩

/-- C8 witness: the registered id "ba" hits the registry entry. -/
theorem c8_unknown_id_tolerance_witness :
    get_variable_type ("ba".data) = ⟨"ba".data, "WE current", "A"⟩ ∧
    var_type_warns ("ba".data) = false :=
  (c8_unknown_id_tolerance ("ba".data)).1 ⟨"ba".data, "WE current", "A"⟩ rfl

/-- C10 counterexample: the claim says parse_metadata returns a map for
every token list, every non-matching token being ignored without error;
but the guard-matching token "1z" (length 2, leading '1') has a non-hex
second character, so Python int raises and parse_metadata does not return
a map. -/
theorem c10_counterexample : parse_metadata [['1', 'z']] = .error () := rfl

/-- C10 (corrected): whenever parse_metadata returns, its keys are a subset
of status and cr, the status key can only come from a 2-character token
starting with '1' and the cr key only from a 3-character token starting
with '2'; a token list with no guard-matching token is wholly ignored:
the empty dictionary is returned and no error is raised. -/
theorem c10_metadata_keys (tokens : List (List Char)) :
    (∀ d, parse_metadata tokens = .ok d →
      (∀ kv ∈ d, kv.1 = "status" ∨ kv.1 = "cr") ∧
      (hasKey d "status" = true → ∃ t ∈ tokens, mdGuardStatus t) ∧
      (hasKey d "cr" = true → ∃ t ∈ tokens, mdGuardCr t)) ∧
    ((∀ t ∈ tokens, ¬ mdGuardStatus t ∧ ¬ mdGuardCr t) →
      parse_metadata tokens = .ok []) := by
  constructor
  · intro d h
    refine ⟨?_, ?_, ?_⟩
    · intro kv hkv
      rcases mdFold_ok_mem h kv hkv with h1 | h1
      · exact absurd h1 (by simp)
      · exact h1
    · intro hk
      rcases mdFold_hasKey h hk with h1 | ⟨_, hex⟩ | ⟨hks, _⟩
      · exact absurd h1 (by simp [hasKey])
      · exact hex
      · exact absurd hks (by decide)
    · intro hk
      rcases mdFold_hasKey h hk with h1 | ⟨hks, _⟩ | ⟨_, hex⟩
      · exact absurd h1 (by simp [hasKey])
      · exact absurd hks (by decide)
      · exact hex
  · intro hskip
    exact mdFold_skip hskip

/-- C10 witness: a matching status token is recorded; non-matching tokens
are ignored without error. -/
theorem c10_metadata_keys_witness :
    (∀ kv ∈ [(("status" : String), (0 : ℤ))], kv.1 = "status" ∨ kv.1 = "cr") ∧
    parse_metadata [['x', 'y']] = .ok [] :=
  ⟨((c10_metadata_keys [['1', '0']]).1 [("status", 0)] rfl).1,
    (c10_metadata_keys [['x', 'y']]).2 (by decide)⟩

/-- C5 (confirmed): a curve is only closed by an explicit terminator line,
so trailing packages not followed by any terminator are never emitted:
appending any terminator-free suffix to an input leaves the emitted curves
unchanged; with no terminator line at all no curve is ever emitted, and in
particular two valid package lines with no trailing terminator yield zero
curves. -/
theorem c5_no_autoflush :
    (∀ (front tail : List (List Char)) (res : List (List (List MScriptVar))),
      (∀ l ∈ tail, isTerminator l = false) →
      parse_result_lines (front ++ tail) = .ok res →
      parse_result_lines front = .ok res) ∧
    (∀ (lines : List (List Char)) (res : List (List (List MScriptVar))),
      (∀ l ∈ lines, isTerminator l = false) →
      parse_result_lines lines = .ok res → res = []) ∧
    parse_result_lines ["Pba0000000 \n".data, "Pba2000000n\n".data] =
      .ok [] ∧
    (parse_result_lines ["Pba0000000 \n".data, "*\n".data,
        "Pba2000000n\n".data]).map (fun r => r.map List.length) =
      .ok [1] := by
  refine ⟨?_, ?_, rfl, rfl⟩
  · intro front tail res hterm h
    rw [parse_result_lines] at h ⊢
    rw [prFold_append] at h
    cases hfront : prFold ([], []) front with
    | error e => simp [hfront, Except.map] at h
    | ok st1 =>
      simp only [hfront] at h
      cases htail : prFold st1 tail with
      | error e => simp [htail, Except.map] at h
      | ok st2 =>
        simp only [htail, Except.map] at h
        cases h
        simp only [hfront, Except.map]
        rw [prFold_fst_of_no_term hterm htail]
  · intro lines res hterm h
    rw [parse_result_lines] at h
    cases hfold : prFold ([], []) lines with
    | error e => rw [hfold] at h; cases h
    | ok st' =>
      rw [hfold] at h
      simp only [Except.map] at h
      cases h
      exact prFold_fst_of_no_term hterm hfold

/-- C5 witness: a package line after the final terminator is dropped — the
three-line input with a trailing package yields the same single curve as
its two-line terminated front. -/
theorem c5_no_autoflush_witness :
    parse_result_lines ["Pba0000000 \n".data, "*\n".data] =
      .ok [[[⟨"ba".data, .intVal (-134217728), ' ', [], []⟩]]] :=
  c5_no_autoflush.1 ["Pba0000000 \n".data, "*\n".data]
    ["Pba2000000n\n".data]
    [[[⟨"ba".data, .intVal (-134217728), ' ', [], []⟩]]]
    (by decide) (by rfl)

/-- C4 (confirmed): the assembler closes the current curve exactly on a
line whose first character is '+', '*' or '-' and only when the
accumulator is non-empty (so no empty curve is ever emitted and stray or
repeated terminators add nothing), and on the concrete five-line example
it yields exactly two curves of two and one packages. -/
theorem c4_curve_segmentation :
    (∀ st (line : List Char), isTerminator line = true →
      prStep st line =
        if st.2.isEmpty then .ok st else .ok (st.1 ++ [st.2], [])) ∧
    (∀ st st' (line : List Char), isTerminator line = false →
      prStep st line = .ok st' → st'.1 = st.1) ∧
    (∀ (lines : List (List Char)) (res : List (List (List MScriptVar))),
      parse_result_lines lines = .ok res → [] ∉ res) ∧
    (parse_result_lines ["Pba0000000 \n".data, "Pba2000000n\n".data,
        "*\n".data, "Pba0000001 \n".data, "*\n".data]).map
      (fun r => r.map List.length) = .ok [2, 1] ∧
    (parse_result_lines ["*\n".data, "Pba0000000 \n".data, "*\n".data,
        "*\n".data]).map (fun r => r.map List.length) = .ok [1] := by
  refine ⟨fun st line h => prStep_term h,
    fun st st' line h hok => (prStep_nonterm h hok).1, ?_, rfl, rfl⟩
  intro lines res h
  rw [parse_result_lines] at h
  cases hfold : prFold ([], []) lines with
  | error e => rw [hfold] at h; cases h
  | ok st' =>
    rw [hfold] at h
    simp only [Except.map] at h
    cases h
    exact prFold_no_empty hfold (by simp)

/-- C4 witness: the closing rule applied to concrete states and lines. -/
theorem c4_curve_segmentation_witness :
    prStep (([] : List (List (List MScriptVar))), []) ("*\n".data) =
      .ok ([], []) ∧
    (([] : List (List (List MScriptVar))), ([] : List (List MScriptVar))).1
      = ([], ([] : List (List MScriptVar))).1 ∧
    ([] : List (List MScriptVar)) ∉ ([] : List (List (List MScriptVar))) := by
  refine ⟨?_, ?_, ?_⟩
  · have h := c4_curve_segmentation.1 ([], []) ("*\n".data) rfl
    simpa using h
  · exact c4_curve_segmentation.2.1 ([], []) ([], []) ("x\n".data) rfl rfl
  · exact c4_curve_segmentation.2.2.1 ["*\n".data] [] rfl

/-- C7 (confirmed): if any package in the projection domain is too short
for the requested column, get_values_by_column raises: with no curve
filter any short package anywhere raises, and with a curve filter a short
package in the selected curve raises; no shortened sequence is returned. -/
theorem c7_out_of_range_raises (curves : List (List (List MScriptVar)))
    (k : ℕ) (h : ∃ c ∈ curves, ∃ row ∈ c, row.length ≤ k) :
    get_values_by_column curves k none = .error () ∧
    ∀ i (hi : i < curves.length),
      (∃ row ∈ curves.get ⟨i, hi⟩, row.length ≤ k) →
      get_values_by_column curves k (some i) = .error () := by
  constructor
  · obtain ⟨c, hc, row, hrow, hle⟩ := h
    have hrv : rowColValue row k = .error () := by
      rw [rowColValue, List.get?_eq_none.mpr hle]
    have hcurve : exMapM (fun row => rowColValue row k) c = .error () :=
      exMapM_error_of_mem hrow hrv
    have houter :
        exMapM (fun curve => exMapM (fun row => rowColValue row k) curve)
          curves = .error () :=
      exMapM_error_of_mem hc hcurve
    rw [get_values_by_column, houter]
    rfl
  · intro i hi hshort
    obtain ⟨row, hrow, hle⟩ := hshort
    have hrv : rowColValue row k = .error () := by
      rw [rowColValue, List.get?_eq_none.mpr hle]
    rw [get_values_by_column, List.get?_eq_get hi]
    show exMapM (fun row => rowColValue row k) (curves.get ⟨i, hi⟩) = .error ()
    exact exMapM_error_of_mem hrow hrv

/-- C7 witness: a single curve containing a single empty package raises
for column 0. -/
theorem c7_out_of_range_raises_witness :
    get_values_by_column [[([] : List MScriptVar)]] 0 none = .error () :=
  (c7_out_of_range_raises [[[]]] 0 ⟨[[]], by simp, [], by simp, by simp⟩).1

/-- C6 (confirmed): when every package has a (computable) value at the
requested column, the unfiltered projection equals the concatenation, in
curve order, of the per-curve projections, each preserving row order. -/
theorem c6_column_flattening (curves : List (List (List MScriptVar)))
    (k : ℕ) (h : ∀ c ∈ curves, ∀ row ∈ c, ∃ q, rowColValue row k = .ok q) :
    ∃ vss : List (List RVal),
      vss.length = curves.length ∧
      (∀ i (h1 : i < curves.length) (h2 : i < vss.length),
        get_values_by_column curves k (some i) = .ok (vss.get ⟨i, h2⟩)) ∧
      get_values_by_column curves k none = .ok vss.flatten := by
  have hc : ∀ c ∈ curves,
      ∃ vs, exMapM (fun row => rowColValue row k) c = .ok vs :=
    fun c hcm => exMapM_ok_of_forall (h c hcm)
  obtain ⟨vss, hvss⟩ := exMapM_ok_of_forall hc
  refine ⟨vss, exMapM_ok_length hvss, ?_, ?_⟩
  · intro i h1 h2
    rw [get_values_by_column, List.get?_eq_get h1]
    show exMapM (fun row => rowColValue row k) (curves.get ⟨i, h1⟩) =
      .ok (vss.get ⟨i, h2⟩)
    exact exMapM_ok_get hvss i h1 h2
  · rw [get_values_by_column, hvss]
    rfl

/-- C6 witness: two concrete curves of two and three one-variable packages
flatten to the five values in curve order then row order. -/
theorem c6_column_flattening_witness :
    ∃ vss : List (List RVal),
      vss.length =
        ([[[⟨"eb".data, .intVal 1, ' ', [], []⟩],
           [⟨"eb".data, .intVal 2, ' ', [], []⟩]],
          [[⟨"eb".data, .intVal 3, ' ', [], []⟩],
           [⟨"eb".data, .intVal 4, ' ', [], []⟩],
           [⟨"eb".data, .intVal 5, ' ', [], []⟩]]] :
          List (List (List MScriptVar))).length ∧
      (∀ i (h1 : i <
          ([[[⟨"eb".data, .intVal 1, ' ', [], []⟩],
             [⟨"eb".data, .intVal 2, ' ', [], []⟩]],
            [[⟨"eb".data, .intVal 3, ' ', [], []⟩],
             [⟨"eb".data, .intVal 4, ' ', [], []⟩],
             [⟨"eb".data, .intVal 5, ' ', [], []⟩]]] :
            List (List (List MScriptVar))).length) (h2 : i < vss.length),
        get_values_by_column
          [[[⟨"eb".data, .intVal 1, ' ', [], []⟩],
            [⟨"eb".data, .intVal 2, ' ', [], []⟩]],
           [[⟨"eb".data, .intVal 3, ' ', [], []⟩],
            [⟨"eb".data, .intVal 4, ' ', [], []⟩],
            [⟨"eb".data, .intVal 5, ' ', [], []⟩]]] 0 (some i) =
          .ok (vss.get ⟨i, h2⟩)) ∧
      get_values_by_column
        [[[⟨"eb".data, .intVal 1, ' ', [], []⟩],
          [⟨"eb".data, .intVal 2, ' ', [], []⟩]],
         [[⟨"eb".data, .intVal 3, ' ', [], []⟩],
          [⟨"eb".data, .intVal 4, ' ', [], []⟩],
          [⟨"eb".data, .intVal 5, ' ', [], []⟩]]] 0 none = .ok vss.flatten :=
  c6_column_flattening _ 0 (by
    intro c hc row hrow
    fin_cases hc <;> fin_cases hrow <;> exact ⟨_, rfl⟩)

/-- C9 (confirmed): a successfully parsed package line yields one decoded
variable per ';'-separated segment, in segment order: the package length is
the number of ';' characters between the leading 'P' and the trailing
newline plus one, and the i-th variable is the decode of the i-th segment. -/
theorem c9_one_var_per_segment (line : List Char) (pkg : List MScriptVar)
    (hok : parse_mscript_data_package line = .ok (some pkg)) :
    pkg.length = ((line.drop 1).dropLast).count ';' + 1 ∧
    pkg.length = (splitOnChar ';' ((line.drop 1).dropLast)).length ∧
    ∀ i (h1 : i < (splitOnChar ';' ((line.drop 1).dropLast)).length)
      (h2 : i < pkg.length),
      mkMScriptVar ((splitOnChar ';' ((line.drop 1).dropLast)).get ⟨i, h1⟩) =
        .ok (pkg.get ⟨i, h2⟩) := by
  have hmap := parse_package_ok_some hok
  have hlen := exMapM_ok_length hmap
  refine ⟨?_, hlen, fun i h1 h2 => exMapM_ok_get hmap i h1 h2⟩
  rw [hlen, splitOnChar_length]

/-- C9 witness: a two-segment package line decodes to a two-variable
package. -/
theorem c9_one_var_per_segment_witness :
    ∃ pkg, parse_mscript_data_package ("Peb0000001 ;ba2000000n\n".data) =
      .ok (some pkg) ∧
    pkg.length = (("Peb0000001 ;ba2000000n\n".data).drop 1).dropLast.count ';'
      + 1 := by
  refine ⟨[⟨"eb".data, .intVal (-134217727), ' ', [], []⟩,
    ⟨"ba".data, .intVal (-100663296), 'n', [], []⟩], by rfl, ?_⟩
  exact (c9_one_var_per_segment ("Peb0000001 ;ba2000000n\n".data) _ (by rfl)).1

/-- C1 (corrected) amended part: a package-shaped line one of whose
segments fails variable construction (for example malformed hex digits in
the value field) makes parse_mscript_data_package raise for the whole
line: it neither returns None nor emits a partial package. -/
theorem c1_raise_on_malformed_segment (line : List Char)
    (hP : line.head? = some 'P') (hNL : line.getLast? = some '\n')
    (hbad : ∃ seg ∈ splitOnChar ';' ((line.drop 1).dropLast),
      mkMScriptVar seg = .error ()) :
    parse_mscript_data_package line = .error () := by
  obtain ⟨seg, hseg, herr⟩ := hbad
  rw [parse_package_shape hP hNL, exMapM_error_of_mem hseg herr]
  rfl

/-- C1 counterexample: the claim says a line with a segment that fails
decoding returns None; in fact a malformed hex digit ('g') makes the
parser raise, and an unsupported SI prefix ('?') does not fail at parse
time at all — the full package is returned with the bad prefix stored. -/
theorem c1_counterexample :
    parse_mscript_data_package ("Pba000000g \n".data) = .error () ∧
    parse_mscript_data_package ("Pba0000000?\n".data) =
      .ok (some [⟨"ba".data, .intVal (-134217728), '?', [], []⟩]) ∧
    siPrefixFactor '?' = none :=
  ⟨by rfl, by rfl, rfl⟩

/-- C1 witness: the amended theorem applied to the concrete malformed-hex
line. -/
theorem c1_raise_on_malformed_segment_witness :
    parse_mscript_data_package ("Pba000000g \n".data) = .error () :=
  c1_raise_on_malformed_segment ("Pba000000g \n".data) rfl rfl
    ⟨"ba000000g ".data, by decide, by rfl⟩

/-! Helper lemmas for the round-trip decode and NaN sentinel claims. -/

theorem nanSentinel_eq :
    nanSentinel = [' ', ' ', ' ', ' ', ' ', 'n', 'a', 'n'] := rfl

theorem splitOnChar_cons (sep c : Char) (rest : List Char) :
    splitOnChar sep (c :: rest) =
      if c = sep then [] :: splitOnChar sep rest
      else
        match splitOnChar sep rest with
        | [] => [[c]]
        | s :: ss => (c :: s) :: ss := rfl

theorem rawMeta_tokens (a b : Char) (body : List Char)
    (hbody : (',') ∉ body) :
    ∀ t ∈ (splitOnChar ',' (a :: b :: body)).drop 1,
      t = [] ∨ t = body ∨ t = b :: body := by
  have hb : splitOnChar ',' body = [body] := splitOnChar_of_not_mem hbody
  by_cases ha : a = ','
  · by_cases hbc : b = ','
    · simp only [splitOnChar_cons, ha, hbc, if_true, hb]
      intro t ht
      simp at ht
      rcases ht with rfl | rfl
      · exact Or.inl rfl
      · exact Or.inr (Or.inl rfl)
    · simp only [splitOnChar_cons, ha, hbc, if_true, if_false, hb]
      intro t ht
      simp at ht
      rw [ht]
      exact Or.inr (Or.inr rfl)
  · by_cases hbc : b = ','
    · simp only [splitOnChar_cons, ha, hbc, if_true, if_false, hb]
      intro t ht
      simp at ht
      rw [ht]
      exact Or.inr (Or.inl rfl)
    · simp only [splitOnChar_cons, ha, hbc, if_false, hb]
      intro t ht
      simp at ht

theorem parse_metadata_sideband_ok (a b : Char) (body : List Char)
    (hbody : (',') ∉ body) (hlen : 4 ≤ body.length) :
    parse_metadata ((splitOnChar ',' (a :: b :: body)).drop 1) = .ok [] := by
  apply mdFold_skip
  intro t ht
  rcases rawMeta_tokens a b body hbody t ht with rfl | rfl | rfl
  · constructor
    · intro hg
      have := hg.1
      simp at this
    · intro hg
      have := hg.1
      simp at this
  · constructor
    · intro hg
      have := hg.1
      omega
    · intro hg
      have := hg.1
      omega
  · constructor
    · intro hg
      have := hg.1
      simp at this
      omega
    · intro hg
      have := hg.1
      simp at this
      omega

theorem varValue_intVal (idv : List Char) (z : ℤ) (pc : Char)
    (rm : List (List Char)) (md : MdDict) (f : ℚ)
    (hf : siPrefixFactor pc = some f) :
    varValue ⟨idv, .intVal z, pc, rm, md⟩ = .ok (.num ((z : ℚ) * f)) := by
  simp only [varValue]
  rw [hf]

theorem mkMScriptVar_hex_token (a b c1 c2 c3 c4 c5 c6 c7 p : Char)
    (hhex : ∀ c ∈ [c1, c2, c3, c4, c5, c6, c7], isHexDigit c = true)
    (hpc : p ≠ ',') :
    mkMScriptVar [a, b, c1, c2, c3, c4, c5, c6, c7, p] =
      .ok ⟨[a, b],
        .intVal ((hexListVal [c1, c2, c3, c4, c5, c6, c7] : ℤ) - 134217728),
        p,
        (splitOnChar ',' [a, b, c1, c2, c3, c4, c5, c6, c7, p]).drop 1,
        []⟩ := by
  have h10 : 10 ≤ ([a, b, c1, c2, c3, c4, c5, c6, c7, p] : List Char).length := by
    simp
  have hc1 : isHexDigit c1 = true := hhex c1 (by simp)
  have hcomma : (',') ∉ [c1, c2, c3, c4, c5, c6, c7] ++ [p] := by
    intro hm
    rcases List.mem_append.mp hm with hm | hm
    · exact absurd (hhex ',' hm) (by decide)
    · simp at hm
      exact hpc hm.symm
  have hsent :
      ¬((([a, b, c1, c2, c3, c4, c5, c6, c7, p] : List Char).drop 2).take 8 =
        nanSentinel) := by
    intro hs
    have hdt :
        (([a, b, c1, c2, c3, c4, c5, c6, c7, p] : List Char).drop 2).take 8 =
          [c1, c2, c3, c4, c5, c6, c7, p] := rfl
    rw [hdt, nanSentinel_eq] at hs
    have h1 : c1 = ' ' := by
      injection hs
    rw [h1] at hc1
    exact absurd hc1 (by decide)
  have hdec :
      decode_value
        ((([a, b, c1, c2, c3, c4, c5, c6, c7, p] : List Char).drop 2).take 7) =
        .ok ((hexListVal [c1, c2, c3, c4, c5, c6, c7] : ℤ) - 134217728) := by
    have hdt :
        (([a, b, c1, c2, c3, c4, c5, c6, c7, p] : List Char).drop 2).take 7 =
          [c1, c2, c3, c4, c5, c6, c7] := rfl
    rw [hdt, decode_value_of_hex (by simp) hhex]
    norm_num
  have hmd : parse_metadata
      ((splitOnChar ',' [a, b, c1, c2, c3, c4, c5, c6, c7, p]).drop 1) =
      .ok [] := by
    have h0 := parse_metadata_sideband_ok a b
      ([c1, c2, c3, c4, c5, c6, c7] ++ [p]) hcomma (by simp)
    simpa using h0
  simp only [mkMScriptVar]
  rw [dif_pos h10, if_neg hsent, hdec, hmd]
  rfl

/-- C2 (confirmed): decoding the 10-character token assembled from any
2-character id, any 7 hexadecimal digits h and any supported SI prefix p
yields raw_value equal to the unsigned value of h minus 134217728 and
value equal to raw_value times the prefix factor exactly (in the rational
model of Python floats), with the factors of ' ' and 'i' both equal to 1. -/
theorem c2_round_trip_decode (a b : Char) (h : List Char) (p : Char)
    (hlen : h.length = 7) (hhex : ∀ c ∈ h, isHexDigit c = true)
    (f : ℚ) (hp : siPrefixFactor p = some f) :
    siPrefixFactor ' ' = some 1 ∧ siPrefixFactor 'i' = some 1 ∧
    ∃ v, mkMScriptVar (a :: b :: h ++ [p]) = .ok v ∧
      v.raw_value = .intVal ((hexListVal h : ℤ) - 134217728) ∧
      v.si_prefix_char = p ∧
      varValue v =
        .ok (.num ((((hexListVal h : ℤ) - 134217728 : ℤ) : ℚ) * f)) := by
  refine ⟨rfl, rfl, ?_⟩
  have hpc : p ≠ ',' := by
    intro he
    rw [he, show siPrefixFactor ',' = none from rfl] at hp
    exact Option.noConfusion hp
  rcases h with _ | ⟨c1, h⟩
  · simp at hlen
  rcases h with _ | ⟨c2, h⟩
  · simp at hlen
  rcases h with _ | ⟨c3, h⟩
  · simp at hlen
  rcases h with _ | ⟨c4, h⟩
  · simp at hlen
  rcases h with _ | ⟨c5, h⟩
  · simp at hlen
  rcases h with _ | ⟨c6, h⟩
  · simp at hlen
  rcases h with _ | ⟨c7, h⟩
  · simp at hlen
  rcases h with _ | ⟨c8, h⟩
  case cons =>
    simp only [List.length_cons] at hlen
    omega
  exact ⟨_, mkMScriptVar_hex_token a b c1 c2 c3 c4 c5 c6 c7 p hhex hpc,
    rfl, rfl, varValue_intVal _ _ p _ _ f hp⟩

/-- C2 witness: the round-trip theorem applied to the concrete token
"eb8000002m" (raw value 2, milli prefix). -/
theorem c2_round_trip_decode_witness :
    siPrefixFactor ' ' = some 1 ∧ siPrefixFactor 'i' = some 1 ∧
    ∃ v, mkMScriptVar ('e' :: 'b' :: "8000002".data ++ ['m']) = .ok v ∧
      v.raw_value = .intVal ((hexListVal ("8000002".data) : ℤ) - 134217728) ∧
      v.si_prefix_char = 'm' ∧
      varValue v =
        .ok (.num ((((hexListVal ("8000002".data) : ℤ) - 134217728 : ℤ) : ℚ) *
          (1 / 10 ^ 3))) :=
  c2_round_trip_decode 'e' 'b' ("8000002".data) 'm' (by rfl) (by decide)
    (1 / 10 ^ 3) rfl

/-- C3 counterexample: the source sentinel is five spaces followed by
"nan" (8 characters), not the seven spaces the spec describes: the decoder
NaN-decodes the concrete token "ba     nan" whose data[2:10] region does
not equal the spec's 10-character seven-spaces sentinel, which no
8-character region can ever equal. -/
theorem c3_counterexample :
    (∃ v, mkMScriptVar ("ba     nan".data) = .ok v ∧
      v.raw_value = .nan ∧ v.si_prefix_char = ' ') ∧
    ((("ba     nan".data).drop 2).take 8 ≠ sevenSpacesNan) ∧
    sevenSpacesNan.length = 10 ∧ nanSentinel.length = 8 := by
  refine ⟨⟨⟨"ba".data, .nan, ' ', [], []⟩, by rfl, rfl, rfl⟩, ?_, rfl, rfl⟩
  decide

/-- C3 (corrected): a variable token whose data[2:10] region equals the
literal 8-character sentinel of the source — five spaces followed by
"nan" — decodes (for a token without metadata) without raising, with raw
value NaN, SI prefix forced to ' ', and scaled value NaN, so no prefix
lookup error can occur. -/
theorem c3_nan_sentinel (data : List Char) (hlen : 10 ≤ data.length)
    (hreg : (data.drop 2).take 8 = nanSentinel) (hnc : (',') ∉ data) :
    ∃ v, mkMScriptVar data = .ok v ∧ v.raw_value = .nan ∧
      v.si_prefix_char = ' ' ∧ varValue v = .ok .nan := by
  have hsplit : splitOnChar ',' data = [data] := splitOnChar_of_not_mem hnc
  refine ⟨⟨data.take 2, .nan, ' ', (splitOnChar ',' data).drop 1, []⟩,
    ?_, rfl, rfl, rfl⟩
  simp only [mkMScriptVar]
  rw [dif_pos hlen, if_pos hreg, hsplit]
  rfl

/-- C3 witness: the amended sentinel theorem applied to the concrete token
"ba     nan". -/
theorem c3_nan_sentinel_witness :
    ∃ v, mkMScriptVar ("ba     nan".data) = .ok v ∧ v.raw_value = .nan ∧
      v.si_prefix_char = ' ' ∧ varValue v = .ok .nan :=
  c3_nan_sentinel ("ba     nan".data) (by decide) (by rfl) (by decide)

end PicoMScript
